import Mathlib

/-!
Verification of the recipe_app backend: user store, tag store, recipe store
with ownership scoping, and the wait-for-database startup command.

The repository ships its test suite (`src/app/core/tests/test_models.py`,
`src/app/recipe/tests/test_recipe_api.py`) and the management command
`src/app/core/management/commands/wait_for_db.py`.  The model/serializer/view
modules themselves (`core/models.py`, `recipe/serializers.py`,
`recipe/views.py`) are not in the tree, so the store operations below are
modelled from the specification and checked against the shipped tests'
expectations; the wait-for-database command is embedded directly from its
source.

Strings of the Python code are embedded as `List Char` (`Str`), database
tables as Lean lists, and autoincrement primary keys as a `next…Id` counter
carried in the store state.
-/

namespace RecipeApp

/-- Python strings, embedded as lists of characters. -/
abbrev Str := List Char

/-- Lowercasing of a Python string (`str.lower`), character by character. -/
def lowerStr (s : Str) : Str := s.map Char.toLower

/-- Error taxonomy of the spec: `ValidationError` (HTTP 400) and
`NotFound` (HTTP 404). -/
inductive AppError where
  | validationError
  | notFound
deriving Repr, DecidableEq

/-! ## User store -/

/-- A user row: unique email, hashed password, and the standard flags. -/
structure User where
  id : Nat
  email : Str
  password : Str
  is_active : Bool
  is_staff : Bool
  is_superuser : Bool
deriving Repr, DecidableEq

/-- The user table together with the autoincrement id counter. -/
structure UserStore where
  users : List User
  nextUserId : Nat
deriving Repr, DecidableEq

/-- Modelled from the spec: password hashing is an external collaborator
("persistence … fully delegated to the framework"); no claim depends on the
hash function itself, so it is embedded as the identity on the password. -/
def hashPassword (p : Str) : Str := p

/-- Modelled from the spec: the framework's default email normalization used
by the missing `core/models.py` manager — "domain lowercased, local part
preserved as given".  The email is split at its last `'@'` (Python's
`rsplit('@', 1)`); the part after it is lowercased. -/
def normalize_email (e : Str) : Str :=
  match e.reverse.dropWhile (· != '@') with
  | '@' :: localRev => localRev.reverse ++ '@' :: lowerStr (e.reverse.takeWhile (· != '@')).reverse
  | _ => e

/-- Modelled from the spec: `create_user(email, password)` of the missing
`core/models.py` manager — "fails with ValidationError if email is
empty/null.  Normalizes email domain casing.  Hashes password before
storage.  Side effect: persists one User row."  A null email is `none`,
an empty email is `some []`. -/
def create_user (st : UserStore) (email : Option Str) (password : Str) :
    UserStore × Except AppError User :=
  match email with
  | none => (st, .error .validationError)
  | some e =>
    if e.isEmpty then (st, .error .validationError)
    else
      let u : User :=
        { id := st.nextUserId
          email := normalize_email e
          password := hashPassword password
          is_active := true
          is_staff := false
          is_superuser := false }
      ({ users := st.users ++ [u], nextUserId := st.nextUserId + 1 }, .ok u)

/-! ## Tag and recipe stores -/

/-- A tag row: name and owner reference. -/
structure Tag where
  id : Nat
  user : Nat
  name : Str
deriving Repr, DecidableEq

/-- A recipe row: owner reference, the scalar fields, and the ids of the
linked tags (the many-to-many junction). -/
structure Recipe where
  id : Nat
  user : Nat
  title : Str
  time_minutes : Nat
  price : Int
  description : Str
  link : Str
  tags : List Nat
deriving Repr, DecidableEq

/-- The recipe and tag tables together with the autoincrement counters. -/
structure Store where
  recipes : List Recipe
  tagRows : List Tag
  nextRecipeId : Nat
  nextTagId : Nat
deriving Repr, DecidableEq

/-- Modelled from the spec: the tag store's `get_or_create(owner, name)` used
by the missing `recipe/serializers.py` — "returns existing Tag if
(owner, name) already exists for that owner, else creates one". -/
def get_or_create (st : Store) (u : Nat) (name : Str) : Store × Tag :=
  match st.tagRows.find? (fun t => t.user == u && t.name == name) with
  | some t => (st, t)
  | none =>
    let t : Tag := { id := st.nextTagId, user := u, name := name }
    ({ st with tagRows := st.tagRows ++ [t], nextTagId := st.nextTagId + 1 }, t)

/-- Resolution of a list of tag names during a recipe write: each name is
resolved through `get_or_create` in order, and the resulting tag ids are
collected. -/
def resolveTags (st : Store) (u : Nat) : List Str → Store × List Nat
  | [] => (st, [])
  | n :: rest =>
    let p := get_or_create st u n
    let q := resolveTags p.1 u rest
    (q.1, p.2.id :: q.2)

/-- Fields of a recipe creation request: title, time and price are required;
description, link and tags are optional with the model defaults. -/
structure CreateFields where
  title : Str
  time_minutes : Nat
  price : Int
  description : Str := []
  link : Str := []
  tag_names : List Str := []
deriving Repr, DecidableEq

/-- Modelled from the spec: `create(current_user, fields, tag_names)` of the
missing view/serializer — "creates Recipe owned by current_user; for each
name in tag_names, resolves via Tag Store get_or_create(current_user, name)
and links it". -/
def create (st : Store) (u : Nat) (f : CreateFields) : Store × Recipe :=
  let p := resolveTags st u f.tag_names
  let r : Recipe :=
    { id := p.1.nextRecipeId
      user := u
      title := f.title
      time_minutes := f.time_minutes
      price := f.price
      description := f.description
      link := f.link
      tags := p.2 }
  ({ p.1 with recipes := p.1.recipes ++ [r], nextRecipeId := p.1.nextRecipeId + 1 }, r)

/-- Modelled from the spec: `list(current_user)` of the missing view —
"returns only recipes owned by current_user, ordered by descending
identifier" (the owner-scoped queryset with `order_by(-id)`). -/
def listRecipes (st : Store) (u : Nat) : List Recipe :=
  (st.recipes.filter (fun r => r.user == u)).mergeSort (fun a b => Nat.ble b.id a.id)

/-- Modelled from the spec: `get(current_user, id)` of the missing view —
the lookup is pre-filtered by owner, so an id owned by someone else is
indistinguishable from a nonexistent one and yields `NotFound`. -/
def getRecipe (st : Store) (u : Nat) (id : Nat) : Except AppError Recipe :=
  match st.recipes.find? (fun r => r.id == id && r.user == u) with
  | some r => .ok r
  | none => .error .notFound

/-- An update payload: every field optional (partial semantics); a supplied
`user` field is present in the payload but, per the spec, never applied. -/
structure UpdateFields where
  title : Option Str := none
  time_minutes : Option Nat := none
  price : Option Int := none
  description : Option Str := none
  link : Option Str := none
  user : Option Nat := none
  tag_names : Option (List Str) := none
deriving Repr, DecidableEq

/-- Application of the scalar part of an update payload to a recipe row:
supplied fields replace the old values, absent fields keep them; the
payload's `user` field is ignored, as are tags (handled by the caller). -/
def applyFields (p : UpdateFields) (r : Recipe) : Recipe :=
  { r with
    title := p.title.getD r.title
    time_minutes := p.time_minutes.getD r.time_minutes
    price := p.price.getD r.price
    description := p.description.getD r.description
    link := p.link.getD r.link }

/-- Modelled from the spec: `update(current_user, id, fields, tag_names)` of
the missing view/serializer — "fails with NotFound per get semantics; applies
only supplied fields; if tag_names is supplied (even as empty), replaces the
full tag set via get_or_create resolution per name and re-links; if tag_names
is ABSENT, existing tags are left untouched; any attempt to set owner/user in
the payload is ignored". -/
def updateRecipe (st : Store) (u : Nat) (id : Nat) (p : UpdateFields) :
    Store × Except AppError Recipe :=
  match st.recipes.find? (fun r => r.id == id && r.user == u) with
  | none => (st, .error .notFound)
  | some r =>
    let q : Store × List Nat :=
      match p.tag_names with
      | none => (st, r.tags)
      | some names => resolveTags st u names
    let r' : Recipe := { applyFields p r with tags := q.2 }
    ({ q.1 with recipes := q.1.recipes.map (fun x => if x.id == id then r' else x) }, .ok r')

/-- Modelled from the spec: `delete(current_user, id)` of the missing view —
"fails with NotFound per get semantics; otherwise removes the Recipe (tag
links removed, Tags themselves untouched)". -/
def deleteRecipe (st : Store) (u : Nat) (id : Nat) : Store × Except AppError Unit :=
  match st.recipes.find? (fun r => r.id == id && r.user == u) with
  | none => (st, .error .notFound)
  | some _ => ({ st with recipes := st.recipes.filter (fun r => r.id != id) }, .ok ())

/-- Modelled from the spec: the canonical display form of a recipe, the
missing `Recipe.__str__` — "Title displayed textual representation equals its
title field". -/
def recipeStr (r : Recipe) : Str := r.title

/-- Number of tag rows a user owns under a given name. -/
def tagCount (st : Store) (u : Nat) (n : Str) : Nat :=
  st.tagRows.countP (fun t => t.user == u && t.name == n)

/-! ## The wait_for_db management command

Embedded from `src/app/core/management/commands/wait_for_db.py`.  The
observable behaviour of `Command.handle` is a trace of stdout writes and
sleeps; the database check is a function from the attempt index to whether
`self.check(databases=["default"])` succeeds (raising `Psycopg2Error` or
`OperationalError` counts as failure).  The `while db_up is False` loop is
embedded with explicit fuel: `none` means the loop is still running after
`fuel` iterations. -/

/-- One observable step of the command: a plain stdout write, a
`style.SUCCESS` stdout write, or a `time.sleep` of the given duration. -/
inductive DbEvent where
  | write (s : String)
  | successWrite (s : String)
  | sleep (seconds : Nat)
deriving Repr, DecidableEq

/-- The failure message written inside the `except` branch. -/
def unavailableMsg : String := "Database unavailable, waiting 1 second..."

/-- The success message written on success and again after the loop. -/
def availableMsg : String := "Database available!"

/-- The `while db_up is False` loop of `Command.handle`, started at attempt
`i` with `fuel` iterations allowed: on a failing check it writes the failure
message, sleeps 1 second and retries; on a succeeding check it writes the
success message and exits.  `none` means the fuel ran out with the loop
still going. -/
def waitLoop (check : Nat → Bool) : Nat → Nat → Option (List DbEvent)
  | _, 0 => none
  | i, fuel + 1 =>
    if check i then
      some [.successWrite availableMsg]
    else
      match waitLoop check (i + 1) fuel with
      | some evs => some (.write unavailableMsg :: .sleep 1 :: evs)
      | none => none

/-- `Command.handle`: run the wait loop from attempt 0, then write the
success message once more after the loop exits. -/
def handle (check : Nat → Bool) (fuel : Nat) : Option (List DbEvent) :=
  (waitLoop check 0 fuel).map (fun evs => evs ++ [.successWrite availableMsg])

/-- The trace produced by `n` consecutive failing checks: each failure writes
the failure message and then sleeps exactly 1 second. -/
def failEvents : Nat → List DbEvent
  | 0 => []
  | n + 1 => .write unavailableMsg :: .sleep 1 :: failEvents n

/-- How many events of a trace write the given string to stdout (plain or
`style.SUCCESS` writes both go to stdout). -/
def writeCount (s : String) (evs : List DbEvent) : Nat :=
  evs.countP (fun e =>
    match e with
    | .write t => t == s
    | .successWrite t => t == s
    | .sleep _ => false)

/-! ## Theorems -/

/-- C1: for every password value, `create_user` with a null (`none`) or empty
(`some []`) email fails with `ValidationError`, and the user table is
returned unchanged — no `User` row is persisted. -/
theorem create_user_empty_or_null_email_fails (st : UserStore) (password : Str) :
    create_user st none password = (st, .error .validationError) ∧
    create_user st (some []) password = (st, .error .validationError) :=
  ⟨rfl, rfl⟩

lemma takeWhile_append_of_forall {p : Char → Bool} (xs : Str) (y : Char) (ys : Str)
    (h : ∀ x ∈ xs, p x = true) (hy : p y = false) :
    (xs ++ y :: ys).takeWhile p = xs := by
  induction xs with
  | nil => simp [List.takeWhile_cons, hy]
  | cons a t ih =>
    have ha := h a (by simp)
    simp only [List.cons_append, List.takeWhile_cons, ha, if_true]
    rw [ih (fun x hx => h x (by simp [hx]))]

lemma dropWhile_append_of_forall {p : Char → Bool} (xs : Str) (y : Char) (ys : Str)
    (h : ∀ x ∈ xs, p x = true) (hy : p y = false) :
    (xs ++ y :: ys).dropWhile p = y :: ys := by
  induction xs with
  | nil => simp [List.dropWhile_cons, hy]
  | cons a t ih =>
    have ha := h a (by simp)
    simp only [List.cons_append, List.dropWhile_cons, ha, if_true]
    exact ih (fun x hx => h x (by simp [hx]))

lemma normalize_email_split (loc dom : Str) (h : '@' ∉ dom) :
    normalize_email (loc ++ '@' :: dom) = loc ++ '@' :: lowerStr dom := by
  have hrev : (loc ++ '@' :: dom).reverse = dom.reverse ++ '@' :: loc.reverse := by
    simp
  have hall : ∀ x ∈ dom.reverse, (x != '@') = true := by
    intro x hx
    have hxd : x ∈ dom := List.mem_reverse.mp hx
    have hne : x ≠ '@' := fun he => h (he ▸ hxd)
    simpa using hne
  have h1 : (dom.reverse ++ '@' :: loc.reverse).dropWhile (· != '@') = '@' :: loc.reverse :=
    dropWhile_append_of_forall _ _ _ hall (by simp)
  have h2 : (dom.reverse ++ '@' :: loc.reverse).takeWhile (· != '@') = dom.reverse :=
    takeWhile_append_of_forall _ _ _ hall (by simp)
  simp [normalize_email, hrev, h1, h2, lowerStr]

/-- C7: for every valid email (one whose domain is the part after the last
`'@'`), `create_user` succeeds and persists a user whose stored email has the
domain lowercased and the local part preserved exactly as given. -/
theorem create_user_stores_domain_normalized_email
    (st : UserStore) (password loc dom : Str) (h : '@' ∉ dom) :
    ∃ usr,
      (create_user st (some (loc ++ '@' :: dom)) password).2 = .ok usr ∧
      usr.email = loc ++ '@' :: lowerStr dom ∧
      (create_user st (some (loc ++ '@' :: dom)) password).1.users = st.users ++ [usr] := by
  have hne : (loc ++ '@' :: dom).isEmpty = false := by
    cases loc <;> simp
  refine ⟨{ id := st.nextUserId, email := loc ++ '@' :: lowerStr dom,
            password := hashPassword password, is_active := true,
            is_staff := false, is_superuser := false }, ?_, rfl, ?_⟩ <;>
    simp [create_user, hne, normalize_email_split loc dom h]

/-- Witness for C7 at the test's input `Test2@EXAMPLE.com`: the stored email
is `Test2@example.com`. -/
theorem create_user_stores_domain_normalized_email_witness :
    ('@' ∉ ("EXAMPLE.com".data : Str)) ∧
    ∃ usr,
      (create_user ⟨[], 1⟩ (some ("Test2".data ++ '@' :: "EXAMPLE.com".data)) "test123".data).2 = .ok usr ∧
      usr.email = "Test2".data ++ '@' :: lowerStr "EXAMPLE.com".data ∧
      (create_user ⟨[], 1⟩ (some ("Test2".data ++ '@' :: "EXAMPLE.com".data)) "test123".data).1.users
        = ([] : List User) ++ [usr] :=
  ⟨by decide,
   create_user_stores_domain_normalized_email ⟨[], 1⟩ "test123".data "Test2".data
     "EXAMPLE.com".data (by decide)⟩

/-- C8: the canonical displayed textual representation of every created
recipe equals its title field. -/
theorem created_recipe_str_eq_title (st : Store) (u : Nat) (f : CreateFields) :
    recipeStr (create st u f).2 = f.title := rfl

lemma waitLoop_succ (check : Nat → Bool) (i fuel : Nat) :
    waitLoop check i (fuel + 1) =
      if check i then some [.successWrite availableMsg]
      else
        match waitLoop check (i + 1) fuel with
        | some evs => some (.write unavailableMsg :: .sleep 1 :: evs)
        | none => none := rfl

lemma waitLoop_none_of_all_fail (check : Nat → Bool) (h : ∀ i, check i = false) :
    ∀ fuel i, waitLoop check i fuel = none := by
  intro fuel
  induction fuel with
  | zero => intro i; rfl
  | succ n ih => intro i; rw [waitLoop_succ, if_neg (by simp [h]), ih]

lemma waitLoop_first_success (check : Nat → Bool) :
    ∀ j i, (∀ k, k < j → check (i + k) = false) → check (i + j) = true →
      waitLoop check i (j + 1) = some (failEvents j ++ [.successWrite availableMsg]) := by
  intro j
  induction j with
  | zero =>
    intro i _ hj
    have hj' : check i = true := by simpa using hj
    rw [waitLoop_succ, if_pos hj']
    simp [failEvents]
  | succ n ih =>
    intro i hlt hj
    have h0 : check i = false := by simpa using hlt 0 (Nat.succ_pos n)
    have hrest : ∀ k, k < n → check (i + 1 + k) = false := by
      intro k hk
      have he : i + 1 + k = i + (k + 1) := by omega
      rw [he]
      exact hlt (k + 1) (by omega)
    have hsucc : check (i + 1 + n) = true := by
      have he : i + 1 + n = i + (n + 1) := by omega
      rw [he]; exact hj
    rw [waitLoop_succ, if_neg (by simp [h0]), ih (i + 1) hrest hsucc]
    simp [failEvents]

/-- C9: the wait loop of `wait_for_db` never returns while the database check
keeps failing (for every fuel bound it is still running if all checks fail),
and when the first success is at attempt `j` it returns right there, the
trace showing one failure message and one fixed 1-second sleep per failed
attempt — no backoff, and no maximum attempt count since `j` is arbitrary. -/
theorem wait_for_db_retries_until_first_success :
    (∀ (check : Nat → Bool) (fuel : Nat), (∀ i, check i = false) →
      handle check fuel = none) ∧
    (∀ (check : Nat → Bool) (j : Nat), (∀ k, k < j → check k = false) → check j = true →
      handle check (j + 1) =
        some (failEvents j ++ [.successWrite availableMsg, .successWrite availableMsg])) := by
  constructor
  · intro check fuel h
    simp [handle, waitLoop_none_of_all_fail check h fuel 0]
  · intro check j hlt hj
    have h1 := waitLoop_first_success check j 0
      (by intro k hk; simpa using hlt k hk) (by simpa using hj)
    simp [handle, h1]

/-- Witness for C9: an always-failing check leaves the loop running after 5
iterations, and a check that first succeeds at attempt 2 produces exactly two
failure/sleep-1 pairs followed by the success messages. -/
theorem wait_for_db_retries_until_first_success_witness :
    handle (fun _ => false) 5 = none ∧
    handle (fun i => Nat.ble 2 i) (2 + 1) =
      some (failEvents 2 ++ [.successWrite availableMsg, .successWrite availableMsg]) :=
  ⟨wait_for_db_retries_until_first_success.1 _ 5 (fun _ => rfl),
   wait_for_db_retries_until_first_success.2 _ 2 (by decide) (by decide)⟩

lemma waitLoop_writeCount (check : Nat → Bool) :
    ∀ fuel i evs, waitLoop check i fuel = some evs →
      writeCount availableMsg evs = 1 := by
  intro fuel
  induction fuel with
  | zero =>
    intro i evs h
    simp [waitLoop] at h
  | succ n ih =>
    intro i evs h
    rw [waitLoop_succ] at h
    cases hc : check i with
    | true =>
      rw [if_pos hc] at h
      simp at h
      simp [← h, writeCount]
    | false =>
      rw [if_neg (by simp [hc])] at h
      cases hrec : waitLoop check (i + 1) n with
      | none => rw [hrec] at h; simp at h
      | some evs' =>
        rw [hrec] at h
        simp at h
        have hcount := ih (i + 1) evs' hrec
        simp [← h, writeCount, List.countP_cons] at hcount ⊢
        simpa [writeCount] using hcount

/-- C10: on every run of `wait_for_db` in which the loop terminates, the
message "Database available!" is written to stdout exactly twice — once
inside the loop on the first successful check and once more after the loop
exits. -/
theorem wait_for_db_success_message_written_twice (check : Nat → Bool) (fuel : Nat)
    (evs : List DbEvent) (h : handle check fuel = some evs) :
    writeCount availableMsg evs = 2 := by
  unfold handle at h
  cases hrec : waitLoop check 0 fuel with
  | none => rw [hrec] at h; simp at h
  | some evs' =>
    rw [hrec] at h
    simp at h
    have hcount := waitLoop_writeCount check fuel 0 evs' hrec
    simp [← h, writeCount, List.countP_append, List.countP_cons] at hcount ⊢
    simpa [writeCount] using hcount

/-- Witness for C10: an immediately-available database yields the trace with
the success message written exactly twice. -/
theorem wait_for_db_success_message_written_twice_witness :
    handle (fun _ => true) 1 = some [.successWrite availableMsg, .successWrite availableMsg] ∧
    writeCount availableMsg [.successWrite availableMsg, .successWrite availableMsg] = 2 :=
  ⟨rfl, wait_for_db_success_message_written_twice (fun _ => true) 1 _ rfl⟩

/-- A sample recipe for the concrete witnesses below: recipe 1 owned by
user 2, with the defaults of the test helper `create_recipe`. -/
def sampleRecipe : Recipe :=
  { id := 1, user := 2, title := "Sample recipe".data,
    time_minutes := 10, price := 500,
    description := "Sample recipe description.".data,
    link := "http:/example.com/recipe.pdf".data, tags := [] }

/-- A sample store for the concrete witnesses below: user 2 owns recipe 1;
the tag table is empty. -/
def sampleStore : Store :=
  { recipes := [sampleRecipe], tagRows := [], nextRecipeId := 2, nextTagId := 1 }

/-- C2: for every id not owned by `current_user` — whether the id belongs to
another user's recipe or to no recipe at all — `get`, `update` and `delete`
all fail with `NotFound` and leave the store untouched.  Since all three
results are the very same value `(st, .error .notFound)` under the sole
assumption that the id is not owned by the caller, the foreign-owner case and
the nonexistent case are observably identical. -/
theorem foreign_or_missing_id_not_found (st : Store) (u id : Nat) (p : UpdateFields)
    (h : ∀ r ∈ st.recipes, r.id = id → r.user ≠ u) :
    getRecipe st u id = .error .notFound ∧
    updateRecipe st u id p = (st, .error .notFound) ∧
    deleteRecipe st u id = (st, .error .notFound) := by
  have hfind : st.recipes.find? (fun r => r.id == id && r.user == u) = none := by
    rw [List.find?_eq_none]
    intro r hr
    simp only [Bool.and_eq_true, beq_iff_eq]
    rintro ⟨h1, h2⟩
    exact h r hr h1 h2
  refine ⟨?_, ?_, ?_⟩ <;> simp [getRecipe, updateRecipe, deleteRecipe, hfind]

/-- Witness for C2 at the foreign-owner case: user 1 targets recipe 1 owned
by user 2 and receives `NotFound` from all three operations. -/
theorem foreign_or_missing_id_not_found_witness :
    (∀ r ∈ sampleStore.recipes, r.id = 1 → r.user ≠ 1) ∧
    (getRecipe sampleStore 1 1 = .error .notFound ∧
     updateRecipe sampleStore 1 1 {} = (sampleStore, .error .notFound) ∧
     deleteRecipe sampleStore 1 1 = (sampleStore, .error .notFound)) :=
  ⟨by decide, foreign_or_missing_id_not_found sampleStore 1 1 {} (by decide)⟩

/-- C3: `list` returns exactly the recipes owned by `current_user` — a recipe
is in the result precisely when it is in the table and owned by the caller —
and the result is ordered by descending identifier. -/
theorem list_recipes_owner_scoped_desc (st : Store) (u : Nat) :
    (∀ r, r ∈ listRecipes st u ↔ r ∈ st.recipes ∧ r.user = u) ∧
    (listRecipes st u).Pairwise (fun a b => b.id ≤ a.id) := by
  constructor
  · intro r
    simp [listRecipes, List.mem_mergeSort, List.mem_filter]
  · have hs := @List.sorted_mergeSort Recipe (fun a b => Nat.ble b.id a.id)
      (by intro a b c hab hbc; simp only [Nat.ble_eq] at hab hbc ⊢; omega)
      (by intro a b; simp only [Bool.or_eq_true, Nat.ble_eq]; omega)
      (st.recipes.filter (fun r => r.user == u))
    exact hs.imp (fun hab => by simpa [Nat.ble_eq] using hab)

/-- C4: an update whose payload carries a `user` field does not error and
leaves the recipe's owner unchanged (the `user` value of the payload is
silently ignored), while the other supplied fields still apply with the
usual partial semantics. -/
theorem update_ignores_owner_field (st : Store) (u id : Nat) (p : UpdateFields) (v : Nat)
    (r : Recipe) (h : st.recipes.find? (fun x => x.id == id && x.user == u) = some r) :
    ∃ r', (updateRecipe st u id { p with user := some v }).2 = .ok r' ∧
      r'.user = r.user ∧ r'.user = u ∧
      r'.title = p.title.getD r.title ∧
      r'.time_minutes = p.time_minutes.getD r.time_minutes ∧
      r'.price = p.price.getD r.price ∧
      r'.description = p.description.getD r.description ∧
      r'.link = p.link.getD r.link := by
  have hu : r.user = u := by
    have hp := List.find?_some h
    simp only [Bool.and_eq_true, beq_iff_eq] at hp
    exact hp.2
  simp only [updateRecipe, h]
  exact ⟨_, rfl, rfl, hu, rfl, rfl, rfl, rfl, rfl⟩

/-- Witness for C4: the owner of recipe 1 patches it with a payload that
tries to reassign the owner to user 1; the update succeeds and the owner
stays user 2. -/
theorem update_ignores_owner_field_witness :
    ∃ r', (updateRecipe sampleStore 2 1 { user := some 1 }).2 = .ok r' ∧
      r'.user = sampleRecipe.user ∧ r'.user = 2 ∧
      r'.title = sampleRecipe.title ∧
      r'.time_minutes = sampleRecipe.time_minutes ∧
      r'.price = sampleRecipe.price ∧
      r'.description = sampleRecipe.description ∧
      r'.link = sampleRecipe.link :=
  update_ignores_owner_field sampleStore 2 1 {} 1 sampleRecipe rfl

/-- C6: a partial update changes exactly the supplied fields — each absent
field (including `link`) keeps its prior value, the owner is never changed,
and when `tag_names` is absent the tag links are left untouched. -/
theorem partial_update_applies_only_supplied_fields (st : Store) (u id : Nat)
    (p : UpdateFields) (r : Recipe)
    (h : st.recipes.find? (fun x => x.id == id && x.user == u) = some r) :
    ∃ r', (updateRecipe st u id p).2 = .ok r' ∧
      r'.title = p.title.getD r.title ∧
      r'.time_minutes = p.time_minutes.getD r.time_minutes ∧
      r'.price = p.price.getD r.price ∧
      r'.description = p.description.getD r.description ∧
      r'.link = p.link.getD r.link ∧
      r'.user = r.user ∧
      (p.tag_names = none → r'.tags = r.tags) := by
  simp only [updateRecipe, h]
  refine ⟨_, rfl, rfl, rfl, rfl, rfl, rfl, rfl, ?_⟩
  intro ht
  simp [ht]

/-- Witness for C6: patching only the title of recipe 1 changes the title
and keeps link, owner and tag links at their prior values. -/
theorem partial_update_applies_only_supplied_fields_witness :
    ∃ r', (updateRecipe sampleStore 2 1 { title := some "New recipe title".data }).2 = .ok r' ∧
      r'.title = "New recipe title".data ∧
      r'.link = sampleRecipe.link ∧
      r'.user = sampleRecipe.user ∧
      r'.tags = sampleRecipe.tags := by
  obtain ⟨r', h1, ht, _, _, _, hl, hu, htags⟩ :=
    partial_update_applies_only_supplied_fields sampleStore 2 1
      { title := some "New recipe title".data } sampleRecipe rfl
  exact ⟨r', h1, ht, hl, hu, htags rfl⟩

lemma find?_of_mem_of_countP_le_one {α : Type} (p : α → Bool) :
    ∀ (l : List α) (t : α), t ∈ l → p t = true → l.countP p ≤ 1 →
      l.find? p = some t := by
  intro l
  induction l with
  | nil => intro t ht; cases ht
  | cons a l ih =>
    intro t ht hp hc
    cases ha : p a with
    | true =>
      rw [List.find?_cons_of_pos _ ha]
      rcases List.mem_cons.mp ht with h1 | h1
      · rw [h1]
      · exfalso
        have h2 : 0 < l.countP p := List.countP_pos_iff.mpr ⟨t, h1, hp⟩
        have h3 : (a :: l).countP p = l.countP p + 1 := by
          simp [List.countP_cons, ha]
        omega
    | false =>
      have hta : t ∈ l := by
        rcases List.mem_cons.mp ht with h1 | h1
        · exfalso; rw [h1, ha] at hp; cases hp
        · exact h1
      rw [List.find?_cons_of_neg _ (by simp [ha])]
      refine ih t hta hp ?_
      have h3 : (a :: l).countP p = l.countP p := by
        simp [List.countP_cons, ha]
      omega

lemma get_or_create_tagRows_append (st : Store) (u : Nat) (n : Str) :
    ∃ l, (get_or_create st u n).1.tagRows = st.tagRows ++ l := by
  cases h : st.tagRows.find? (fun t => t.user == u && t.name == n) with
  | some t => exact ⟨[], by simp [get_or_create, h]⟩
  | none => exact ⟨[{ id := st.nextTagId, user := u, name := n }], by simp [get_or_create, h]⟩

lemma resolveTags_tagRows_append (u : Nat) :
    ∀ (names : List Str) (st : Store),
      ∃ l, (resolveTags st u names).1.tagRows = st.tagRows ++ l := by
  intro names
  induction names with
  | nil => intro st; exact ⟨[], by simp [resolveTags]⟩
  | cons n rest ih =>
    intro st
    obtain ⟨l1, h1⟩ := get_or_create_tagRows_append st u n
    obtain ⟨l2, h2⟩ := ih (get_or_create st u n).1
    refine ⟨l1 ++ l2, ?_⟩
    show (resolveTags (get_or_create st u n).1 u rest).1.tagRows = st.tagRows ++ (l1 ++ l2)
    rw [h2, h1, List.append_assoc]

lemma mem_tagRows_resolveTags (u : Nat) (names : List Str) (st : Store) (t : Tag)
    (h : t ∈ st.tagRows) : t ∈ (resolveTags st u names).1.tagRows := by
  obtain ⟨l, hl⟩ := resolveTags_tagRows_append u names st
  rw [hl]
  exact List.mem_append_left _ h

lemma get_or_create_spec (st : Store) (u : Nat) (n : Str) :
    (get_or_create st u n).2.user = u ∧ (get_or_create st u n).2.name = n ∧
    (get_or_create st u n).2 ∈ (get_or_create st u n).1.tagRows := by
  cases h : st.tagRows.find? (fun t => t.user == u && t.name == n) with
  | some t =>
    have hp := List.find?_some h
    simp only [Bool.and_eq_true, beq_iff_eq] at hp
    simp only [get_or_create, h]
    exact ⟨hp.1, hp.2, List.mem_of_find?_eq_some h⟩
  | none =>
    simp [get_or_create, h]

lemma get_or_create_tagCount (st : Store) (u : Nat) (m : Str)
    (hu : ∀ n, tagCount st u n ≤ 1) :
    ∀ n, tagCount (get_or_create st u m).1 u n ≤ 1 := by
  intro n
  cases h : st.tagRows.find? (fun t => t.user == u && t.name == m) with
  | some t => simpa [get_or_create, h] using hu n
  | none =>
    have h0 : tagCount st u m = 0 := by
      rw [tagCount, List.countP_eq_zero]
      exact List.find?_eq_none.mp h
    simp only [get_or_create, h]
    by_cases hnm : m = n
    · subst hnm
      have hs : tagCount { st with
            tagRows := st.tagRows ++ [{ id := st.nextTagId, user := u, name := m }],
            nextTagId := st.nextTagId + 1 } u m = tagCount st u m + 1 := by
        simp [tagCount, List.countP_append, List.countP_cons]
      rw [tagCount] at hs ⊢
      omega
    · have hs : tagCount { st with
            tagRows := st.tagRows ++ [{ id := st.nextTagId, user := u, name := m }],
            nextTagId := st.nextTagId + 1 } u n = tagCount st u n := by
        simp [tagCount, List.countP_append, List.countP_cons, hnm]
      rw [tagCount] at hs ⊢
      rw [hs]
      exact hu n

lemma resolveTags_tagCount (u : Nat) :
    ∀ (names : List Str) (st : Store), (∀ n, tagCount st u n ≤ 1) →
      ∀ n, tagCount (resolveTags st u names).1 u n ≤ 1 := by
  intro names
  induction names with
  | nil => intro st h n; exact h n
  | cons m rest ih =>
    intro st h n
    exact ih (get_or_create st u m).1 (get_or_create_tagCount st u m h) n

lemma resolveTags_provides (u : Nat) :
    ∀ (names : List Str) (st : Store) (n : Str), n ∈ names →
      ∃ t ∈ (resolveTags st u names).1.tagRows, t.user = u ∧ t.name = n := by
  intro names
  induction names with
  | nil => intro st n hn; cases hn
  | cons m rest ih =>
    intro st n hn
    rcases List.mem_cons.mp hn with he | hmem
    · subst he
      obtain ⟨hu', hn', hmem'⟩ := get_or_create_spec st u n
      exact ⟨(get_or_create st u n).2,
             mem_tagRows_resolveTags u rest (get_or_create st u n).1 _ hmem', hu', hn'⟩
    · exact ih (get_or_create st u m).1 n hmem

lemma get_or_create_of_exists (st : Store) (u : Nat) (n : Str)
    (h : ∃ t ∈ st.tagRows, t.user = u ∧ t.name = n) :
    (get_or_create st u n).1 = st := by
  obtain ⟨t, hmem, hu', hn'⟩ := h
  cases hf : st.tagRows.find? (fun x => x.user == u && x.name == n) with
  | some t' => simp [get_or_create, hf]
  | none =>
    exfalso
    have := List.find?_eq_none.mp hf t hmem
    simp [hu', hn'] at this

lemma resolveTags_of_all_present (u : Nat) :
    ∀ (names : List Str) (st : Store),
      (∀ n ∈ names, ∃ t ∈ st.tagRows, t.user = u ∧ t.name = n) →
      (resolveTags st u names).1 = st := by
  intro names
  induction names with
  | nil => intro st _; rfl
  | cons m rest ih =>
    intro st h
    have h1 : (get_or_create st u m).1 = st := get_or_create_of_exists st u m (h m (by simp))
    have h2 := ih (get_or_create st u m).1
      (by rw [h1]; intro n hn; exact h n (by simp [hn]))
    show (resolveTags (get_or_create st u m).1 u rest).1 = st
    rw [h2, h1]

lemma resolveTags_links_existing (u : Nat) :
    ∀ (names : List Str) (st : Store) (t : Tag),
      (∀ n, tagCount st u n ≤ 1) → t ∈ st.tagRows → t.user = u → t.name ∈ names →
      t.id ∈ (resolveTags st u names).2 := by
  intro names
  induction names with
  | nil => intro st t _ _ _ hn; cases hn
  | cons m rest ih =>
    intro st t hc hmem hu' hn
    rcases List.mem_cons.mp hn with he | hmem'
    · have hp : (fun x : Tag => x.user == u && x.name == m) t = true := by
        simp [hu', ← he]
      have hf : st.tagRows.find? (fun x => x.user == u && x.name == m) = some t :=
        find?_of_mem_of_countP_le_one _ st.tagRows t hmem hp (hc m)
      have hgt : (get_or_create st u m).2 = t := by simp [get_or_create, hf]
      show t.id ∈ (get_or_create st u m).2.id :: (resolveTags (get_or_create st u m).1 u rest).2
      rw [hgt]
      exact List.mem_cons_self _ _
    · have hmem1 : t ∈ (get_or_create st u m).1.tagRows := by
        obtain ⟨l, hl⟩ := get_or_create_tagRows_append st u m
        rw [hl]
        exact List.mem_append_left _ hmem
      have hrec := ih (get_or_create st u m).1 t (get_or_create_tagCount st u m hc) hmem1 hu' hmem'
      show t.id ∈ (get_or_create st u m).2.id :: (resolveTags (get_or_create st u m).1 u rest).2
      exact List.mem_cons_of_mem _ hrec

/-- C5: tag resolution during a recipe write is idempotent per (owner, name).
If the tag table has at most one row per (owner, name) and the user already
owns tag `t` whose name occurs in the request's tag names, then the created
recipe links the existing tag's identifier, the user still has exactly one
row under that name afterwards, the at-most-one-row-per-name invariant is
preserved for every name, and repeating the same write adds no tag row. -/
theorem tag_resolution_idempotent (st : Store) (u : Nat) (f : CreateFields) (t : Tag)
    (hc : ∀ n, tagCount st u n ≤ 1) (hmem : t ∈ st.tagRows) (hu : t.user = u)
    (hn : t.name ∈ f.tag_names) :
    t.id ∈ (create st u f).2.tags ∧
    tagCount (create st u f).1 u t.name = 1 ∧
    (∀ n, tagCount (create st u f).1 u n ≤ 1) ∧
    (create (create st u f).1 u f).1.tagRows = (create st u f).1.tagRows := by
  have hlink : t.id ∈ (resolveTags st u f.tag_names).2 :=
    resolveTags_links_existing u f.tag_names st t hc hmem hu hn
  have hinv : ∀ n, tagCount (resolveTags st u f.tag_names).1 u n ≤ 1 :=
    resolveTags_tagCount u f.tag_names st hc
  have htmem : t ∈ (resolveTags st u f.tag_names).1.tagRows :=
    mem_tagRows_resolveTags u f.tag_names st t hmem
  have hone : tagCount (resolveTags st u f.tag_names).1 u t.name = 1 := by
    have hpos : 0 < tagCount (resolveTags st u f.tag_names).1 u t.name := by
      rw [tagCount]
      exact List.countP_pos_iff.mpr ⟨t, htmem, by simp [hu]⟩
    have := hinv t.name
    omega
  refine ⟨hlink, hone, hinv, ?_⟩
  have hprov : ∀ n ∈ f.tag_names,
      ∃ t' ∈ (create st u f).1.tagRows, t'.user = u ∧ t'.name = n := by
    intro n hn'
    exact resolveTags_provides u f.tag_names st n hn'
  have hfix : (resolveTags (create st u f).1 u f.tag_names).1 = (create st u f).1 :=
    resolveTags_of_all_present u f.tag_names (create st u f).1 hprov
  show (resolveTags (create st u f).1 u f.tag_names).1.tagRows = (create st u f).1.tagRows
  rw [hfix]

/-- A sample tag table for the C5 witness: user 1 already owns the tag
"Vegan" with identifier 1. -/
def sampleTag : Tag := { id := 1, user := 1, name := "Vegan".data }

/-- A sample store for the C5 witness holding only `sampleTag`. -/
def sampleTagStore : Store :=
  { recipes := [], tagRows := [sampleTag], nextRecipeId := 1, nextTagId := 2 }

/-- The creation request of the spec's scenario: a recipe with tag names
"Vegan" (already owned) and "Dessert" (new). -/
def sampleCreate : CreateFields :=
  { title := "Avocado lime cheesecake".data, time_minutes := 60, price := 2000,
    tag_names := ["Vegan".data, "Dessert".data] }

/-- Witness for C5 at the spec's scenario: the created recipe links the
pre-existing "Vegan" tag (identifier 1) plus the fresh "Dessert" tag
(identifier 2), exactly one "Vegan" row remains, and re-running the same
write adds no tag row. -/
theorem tag_resolution_idempotent_witness :
    (create sampleTagStore 1 sampleCreate).2.tags = [1, 2] ∧
    (sampleTag.id ∈ (create sampleTagStore 1 sampleCreate).2.tags ∧
     tagCount (create sampleTagStore 1 sampleCreate).1 1 sampleTag.name = 1 ∧
     (∀ n, tagCount (create sampleTagStore 1 sampleCreate).1 1 n ≤ 1) ∧
     (create (create sampleTagStore 1 sampleCreate).1 1 sampleCreate).1.tagRows
       = (create sampleTagStore 1 sampleCreate).1.tagRows) := by
  have hc : ∀ n, tagCount sampleTagStore 1 n ≤ 1 := by
    intro n
    have h := @List.countP_le_length Tag (fun t : Tag => t.user == 1 && t.name == n)
      sampleTagStore.tagRows
    simpa [tagCount, sampleTagStore] using h
  exact ⟨rfl,
    tag_resolution_idempotent sampleTagStore 1 sampleCreate sampleTag hc
      (by simp [sampleTagStore]) rfl (by simp [sampleCreate, sampleTag])⟩

end RecipeApp
